import Mathlib

/-!
# Verification of the note-editor core logic

Shallow embedding of the pure core of the repository:

* `src/protocol/messages.ts` — message data types and the legacy
  compatibility tables (`LegacyMainEditorMessageMap`,
  `LegacyMarginEditorMessageMap`).
* `src/margin-notes/MarginNoteReconciler.ts` — the pure `reconcile`
  function synchronizing main-editor anchors with margin-note blocks.
* The focus state machine (`focusReducer` and its selectors).
* `src/editor/AsyncMessages.ts` — the request/response correlation
  registry, modelled as explicit state passing.

JavaScript `number` positions are modelled as `Int` (the reconciler only
subtracts and compares them), strings as `String`, `Map`/`Set` as
association lists with JavaScript `Map` semantics (unique keys,
last-write-wins on construction from an entry list), and `Array.sort`
with a comparator as Mathlib's stable `List.insertionSort` (ECMAScript
requires `Array.prototype.sort` to be stable, and any two stable sorts
agree on every input).
-/

namespace NoteApp

-- ============================================
-- Data model (src/protocol/messages.ts)
-- ============================================

/-- `AnchorData` from `src/protocol/messages.ts`: anchor reported by the
main editor. -/
structure AnchorData where
  id : String
  line : Int
  blockIndex : Int
deriving DecidableEq

/-- `NoteData` from `src/protocol/messages.ts`: note state managed by
React Native. -/
structure NoteData where
  id : String
  noteIndex : Int
  line : Int
  blockIndex : Int
deriving DecidableEq

/-- `MarginEditorCommand` from `src/protocol/messages.ts` (payload parts
relevant to the reconciler; the `BaseMessage` envelope carries only a
protocol version, a wall-clock timestamp and an optional correlation id,
none of which the claims are about). -/
inductive MarginEditorCommand where
  | SET_CONTENT (html : String)
  | GET_CONTENT (messageId : String)
  | INSERT_NOTE_BLOCK (noteId : String) (noteIndex : Int)
  | DELETE_NOTE_BLOCK (noteId : String)
  | UPDATE_NOTE_INDICES (notes : List (String × Int))
  | FOCUS_NOTE (noteId : String)
  | FOCUS
  | BLUR
  | FORMAT (command : String)
  | INSERT_SHAPE (shape : String)
deriving DecidableEq

/-- Whether a command is a `DELETE_NOTE_BLOCK`. -/
def MarginEditorCommand.isDelete : MarginEditorCommand → Bool
  | .DELETE_NOTE_BLOCK _ => true
  | _ => false

/-- Whether a command is an `INSERT_NOTE_BLOCK`. -/
def MarginEditorCommand.isInsert : MarginEditorCommand → Bool
  | .INSERT_NOTE_BLOCK _ _ => true
  | _ => false

/-- Whether a command is an `UPDATE_NOTE_INDICES`. -/
def MarginEditorCommand.isUpdate : MarginEditorCommand → Bool
  | .UPDATE_NOTE_INDICES _ => true
  | _ => false

-- ============================================
-- Focus state machine (FocusStateMachine module)
-- ============================================

/-- `FocusState` union type: `IDLE`, `MAIN_FOCUSED`, or
`NOTE_FOCUSED { noteId }`. -/
inductive FocusState where
  | IDLE
  | MAIN_FOCUSED
  | NOTE_FOCUSED (noteId : String)
deriving DecidableEq

/-- `FocusEvent` union type: the five focus events. -/
inductive FocusEvent where
  | MAIN_EDITOR_FOCUS
  | MAIN_EDITOR_BLUR
  | NOTE_FOCUS (noteId : String)
  | NOTE_BLUR
  | RESET
deriving DecidableEq

/-- `initialFocusState` from the source. -/
def initialFocusState : FocusState := .IDLE

/-- `focusReducer(state, event)` from the source: RESET is handled
first, then a switch on the state with an inner switch on the event,
defaulting to the unchanged input state. -/
def focusReducer (state : FocusState) (event : FocusEvent) : FocusState :=
  match event with
  | .RESET => .IDLE
  | _ =>
    match state with
    | .IDLE =>
      match event with
      | .MAIN_EDITOR_FOCUS => .MAIN_FOCUSED
      | .NOTE_FOCUS noteId => .NOTE_FOCUSED noteId
      | _ => state
    | .MAIN_FOCUSED =>
      match event with
      | .MAIN_EDITOR_BLUR => .IDLE
      | .NOTE_FOCUS noteId => .NOTE_FOCUSED noteId
      | _ => state
    | .NOTE_FOCUSED _ =>
      match event with
      | .NOTE_BLUR => .IDLE
      | .MAIN_EDITOR_FOCUS => .MAIN_FOCUSED
      | .NOTE_FOCUS noteId => .NOTE_FOCUSED noteId
      | _ => state

/-- The `'main' | 'margin'` literal type of `getToolbarTarget`
(`null` becomes `Option.none`). -/
inductive ToolbarTarget where
  | main
  | margin
deriving DecidableEq

/-- `isMainFocused(state)` from the source. -/
def isMainFocused : FocusState → Bool
  | .MAIN_FOCUSED => true
  | _ => false

/-- `isNoteFocused(state)` from the source. -/
def isNoteFocused : FocusState → Bool
  | .NOTE_FOCUSED _ => true
  | _ => false

/-- `getFocusedNoteId(state)` from the source: the focused note id or
null. -/
def getFocusedNoteId : FocusState → Option String
  | .NOTE_FOCUSED noteId => some noteId
  | _ => none

/-- `isSpecificNoteFocused(state, noteId)` from the source. -/
def isSpecificNoteFocused (state : FocusState) (noteId : String) : Bool :=
  match state with
  | .NOTE_FOCUSED focused => focused == noteId
  | _ => false

/-- `getToolbarTarget(state)` from the source: which editor receives
toolbar actions, or null when idle. -/
def getToolbarTarget : FocusState → Option ToolbarTarget
  | .MAIN_FOCUSED => some .main
  | .NOTE_FOCUSED _ => some .margin
  | .IDLE => none

/-- `hasAnyFocus(state)` from the source: `state.type !== 'IDLE'`. -/
def hasAnyFocus : FocusState → Bool
  | .IDLE => false
  | _ => true

-- ============================================
-- Margin note reconciler (src/margin-notes/MarginNoteReconciler.ts)
-- ============================================

/-- `ReconcilerInput`. -/
structure ReconcilerInput where
  anchors : List AnchorData
  currentNotes : List NoteData
deriving DecidableEq

/-- `ReconcilerDiff`. -/
structure ReconcilerDiff where
  added : List String
  removed : List String
  reordered : List String
  hasChanges : Bool
deriving DecidableEq

/-- `ReconcilerOutput`. -/
structure ReconcilerOutput where
  notes : List NoteData
  commands : List MarginEditorCommand
  diff : ReconcilerDiff
deriving DecidableEq

/-- The sort comparator of step 1 of `reconcile`, as the non-strict
order it induces: `cmp(a,b) = a.line - b.line` if lines differ, else
`a.blockIndex - b.blockIndex`; `anchorLe a b` iff `cmp(a,b) <= 0`. -/
def anchorLe (a b : AnchorData) : Prop :=
  a.line < b.line ∨ (a.line = b.line ∧ a.blockIndex ≤ b.blockIndex)

instance : DecidableRel anchorLe := fun a b =>
  inferInstanceAs
    (Decidable (a.line < b.line ∨ (a.line = b.line ∧ a.blockIndex ≤ b.blockIndex)))

instance : IsTotal AnchorData anchorLe :=
  ⟨fun a b => by unfold anchorLe; omega⟩

instance : IsTrans AnchorData anchorLe :=
  ⟨fun a b c hab hbc => by unfold anchorLe at *; omega⟩

/-- Step 1 of `reconcile`: `[...anchors].sort(cmp)` — a stable sort by
`(line, blockIndex)`. -/
def sortAnchors (anchors : List AnchorData) : List AnchorData :=
  List.insertionSort anchorLe anchors

/-- Step 2 of `reconcile`: `sortedAnchors.map((anchor, index) => ...)` —
each anchor becomes a note carrying `noteIndex = index + 1`.
`buildNotes l i` maps `l` with running position `i`. -/
def buildNotes : List AnchorData → Nat → List NoteData
  | [], _ => []
  | a :: rest, i =>
    { id := a.id, noteIndex := (i : Int) + 1, line := a.line, blockIndex := a.blockIndex }
      :: buildNotes rest (i + 1)

/-- The new notes array of `reconcile`: steps 1 and 2 composed. -/
def newNotesOf (anchors : List AnchorData) : List NoteData :=
  buildNotes (sortAnchors anchors) 0

/-- `new Map(currentNotes.map(n => [n.id, n.noteIndex])).get(id)`:
a JavaScript `Map` built from an entry list keeps the LAST entry for a
duplicated key. -/
def currentIndexOf (currentNotes : List NoteData) (id : String) : Option Int :=
  ((currentNotes.filter (fun n => n.id == id)).getLast?).map (·.noteIndex)

/-- The `removed` list of step 3: ids of `currentNotes` entries whose id
is not among the new ids, in `currentNotes` order. -/
def computeRemoved (currentNotes newNotes : List NoteData) : List String :=
  (currentNotes.filter (fun n => !((newNotes.map (·.id)).contains n.id))).map (·.id)

/-- The `added` list of step 3: ids of `newNotes` entries whose id is
not among the current ids, in `newNotes` order. -/
def computeAdded (currentNotes newNotes : List NoteData) : List String :=
  (newNotes.filter (fun n => !((currentNotes.map (·.id)).contains n.id))).map (·.id)

/-- The `reordered` list of step 3: ids present in both whose recomputed
index differs from the one recorded in the `currentIndexMap` (the
`oldIndex !== note.noteIndex` test, where a missing key would compare as
`undefined`, hence the `Option` inequality). -/
def computeReordered (currentNotes newNotes : List NoteData) : List String :=
  (newNotes.filter (fun n =>
      ((currentNotes.map (·.id)).contains n.id) &&
        !(decide (currentIndexOf currentNotes n.id = some n.noteIndex)))).map (·.id)

/-- The `INSERT_NOTE_BLOCK` command built for an added id:
`newNotes.find(n => n.id === noteId)!`. The source asserts the lookup
never fails (every added id comes from `newNotes`); the `none` branch is
unreachable and is given an arbitrary index. -/
def insertCommandFor (newNotes : List NoteData) (noteId : String) : MarginEditorCommand :=
  match newNotes.find? (fun n => n.id == noteId) with
  | some n => .INSERT_NOTE_BLOCK n.id n.noteIndex
  | none => .INSERT_NOTE_BLOCK noteId 0

/-- `reconcile(input)` from `src/margin-notes/MarginNoteReconciler.ts`. -/
def reconcile (input : ReconcilerInput) : ReconcilerOutput :=
  let newNotes := newNotesOf input.anchors
  let removed := computeRemoved input.currentNotes newNotes
  let added := computeAdded input.currentNotes newNotes
  let reordered := computeReordered input.currentNotes newNotes
  let hasChanges := !added.isEmpty || !removed.isEmpty || !reordered.isEmpty
  let commands :=
    removed.map (fun noteId => MarginEditorCommand.DELETE_NOTE_BLOCK noteId) ++
    added.map (insertCommandFor newNotes) ++
    (if newNotes.isEmpty then []
     else [MarginEditorCommand.UPDATE_NOTE_INDICES
            (newNotes.map (fun n => (n.id, n.noteIndex)))])
  { notes := newNotes
    commands := commands
    diff := { added := added, removed := removed, reordered := reordered,
              hasChanges := hasChanges } }

/-- The order on notes induced by the anchor comparator (output notes
carry the anchor's `line` and `blockIndex` verbatim): ascending by
`(line, blockIndex)`. -/
def noteLe (n m : NoteData) : Prop :=
  n.line < m.line ∨ (n.line = m.line ∧ n.blockIndex ≤ m.blockIndex)

/-- `getNoteById(notes, id)` helper from the source. -/
def getNoteById (notes : List NoteData) (id : String) : Option NoteData :=
  notes.find? (fun n => n.id == id)

/-- `getNextNoteIndex(notes)` helper from the source. -/
def getNextNoteIndex (notes : List NoteData) : Int :=
  (notes.length : Int) + 1

/-- `hasNote(notes, id)` helper from the source. -/
def hasNote (notes : List NoteData) (id : String) : Bool :=
  notes.any (fun n => n.id == id)

-- ============================================
-- Async request/response registry (src/editor/AsyncMessages.ts)
-- ============================================

/-- A JavaScript `Map<string, β>` as an association list with unique
keys. `mapGet` is `Map.get` (`none` for `undefined`). -/
def mapGet {β : Type} (l : List (String × β)) (k : String) : Option β :=
  (l.find? (fun p => p.1 == k)).map (·.2)

/-- `Map.set`: replace in place when the key is present, append
otherwise. -/
def mapSet {β : Type} (l : List (String × β)) (k : String) (v : β) :
    List (String × β) :=
  if l.any (fun p => p.1 == k) then
    l.map (fun p => if p.1 == k then (k, v) else p)
  else l ++ [(k, v)]

/-- `Map.delete`: remove the entry for the key (keys are unique, so the
filter removes at most one entry on states reachable through `mapSet`). -/
def mapDelete {β : Type} (l : List (String × β)) (k : String) :
    List (String × β) :=
  l.filter (fun p => !(p.1 == k))

/-- The mutable state of the `AsyncMessages` singleton: the
`subscriptions` map (messageId to stored resolver, of abstract type `ρ`)
and the `timeouts` map (messageId to timer handle). -/
structure AMState (ρ : Type) where
  subscriptions : List (String × ρ)
  timeouts : List (String × Nat)

/-- The synchronous part of `sendAsyncMessage`: with a fresh `messageId`,
register the promise resolver in `subscriptions` and the timer handle in
`timeouts`. -/
def sendRegister {ρ : Type} (st : AMState ρ) (messageId : String)
    (resolver : ρ) (timerId : Nat) : AMState ρ :=
  { subscriptions := mapSet st.subscriptions messageId resolver
    timeouts := mapSet st.timeouts messageId timerId }

/-- `handleResponse(messageId, value)`: returns the `boolean` result,
the state after the call, and the resolver that was invoked with the
supplied value (`none` when no resolver was registered). -/
def handleResponse {ρ : Type} (st : AMState ρ) (messageId : String) :
    Bool × AMState ρ × Option ρ :=
  match mapGet st.subscriptions messageId with
  | some resolver =>
    let subs := mapDelete st.subscriptions messageId
    let touts :=
      match mapGet st.timeouts messageId with
      | some _ => mapDelete st.timeouts messageId
      | none => st.timeouts
    (true, ⟨subs, touts⟩, some resolver)
  | none => (false, st, none)

/-- The `setTimeout` callback installed by `sendAsyncMessage` for
`messageId`: if the subscription is still pending, remove it from both
maps and resolve the promise with `null`. The `Bool` records whether the
promise was resolved with the `null` sentinel. -/
def timeoutFire {ρ : Type} (st : AMState ρ) (messageId : String) :
    AMState ρ × Bool :=
  if (mapGet st.subscriptions messageId).isSome then
    (⟨mapDelete st.subscriptions messageId, mapDelete st.timeouts messageId⟩, true)
  else (st, false)

/-- `cleanup()`: clear every pending timer and empty both maps. Returns
the new state, the timer handles that were cancelled via `clearTimeout`,
and the resolvers that were invoked — none: `cleanup` resolves nothing. -/
def cleanup {ρ : Type} (st : AMState ρ) : AMState ρ × List Nat × List ρ :=
  (⟨[], []⟩, st.timeouts.map (·.2), [])

-- ============================================
-- Legacy message maps (src/protocol/messages.ts)
-- ============================================

/-- `LegacyMainEditorMessageMap` from `src/protocol/messages.ts`,
verbatim: legacy flat-string name to typed protocol name. -/
def LegacyMainEditorMessageMap : List (String × String) :=
  [ ("editor-ready", "EDITOR_READY"),
    ("editor-focus", "EDITOR_FOCUS"),
    ("editor-blur", "EDITOR_BLUR"),
    ("content-change", "CONTENT_CHANGED"),
    ("selection-change", "SELECTION_CHANGED"),
    ("anchor-positions", "ANCHORS_CHANGED"),
    ("content-response", "CONTENT_RESPONSE"),
    ("set-content", "SET_CONTENT"),
    ("get-content", "GET_CONTENT"),
    ("focus", "FOCUS"),
    ("blur", "BLUR"),
    ("toggle-bold", "FORMAT"),
    ("toggle-italic", "FORMAT"),
    ("insert-square", "INSERT_SHAPE"),
    ("insert-circle", "INSERT_SHAPE"),
    ("insert-flower", "INSERT_SHAPE"),
    ("insert-margin-note", "INSERT_MARGIN_NOTE"),
    ("delete-margin-note", "DELETE_MARGIN_NOTE") ]

/-- `LegacyMarginEditorMessageMap` from `src/protocol/messages.ts`,
verbatim. -/
def LegacyMarginEditorMessageMap : List (String × String) :=
  [ ("editor-ready", "EDITOR_READY"),
    ("editor-focus", "EDITOR_FOCUS"),
    ("editor-blur", "EDITOR_BLUR"),
    ("content-change", "CONTENT_CHANGED"),
    ("selection-change", "SELECTION_CHANGED"),
    ("note-block-focus", "EDITOR_FOCUS"),
    ("delete-margin-note", "NOTE_DELETED"),
    ("content-response", "CONTENT_RESPONSE"),
    ("set-content", "SET_CONTENT"),
    ("get-content", "GET_CONTENT"),
    ("focus", "FOCUS"),
    ("blur", "BLUR"),
    ("toggle-bold", "FORMAT"),
    ("toggle-italic", "FORMAT"),
    ("insert-square", "INSERT_SHAPE"),
    ("insert-circle", "INSERT_SHAPE"),
    ("insert-flower", "INSERT_SHAPE"),
    ("insert-note-block", "INSERT_NOTE_BLOCK"),
    ("delete-note-block", "DELETE_NOTE_BLOCK"),
    ("update-note-block-index", "UPDATE_NOTE_INDICES"),
    ("update-all-note-block-indices", "UPDATE_NOTE_INDICES"),
    ("focus-note-block", "FOCUS_NOTE") ]

-- ============================================
-- Theorems
-- ============================================

/-- C5: the focus reducer is a total pure function on the 3-state by
5-event domain implementing exactly the spec's transition table: RESET
always yields IDLE; NOTE_FOCUS always yields NOTE_FOCUSED with the
event's noteId (replacing the id even when equal); MAIN_EDITOR_FOCUS
yields MAIN_FOCUSED from IDLE and from NOTE_FOCUSED; MAIN_EDITOR_BLUR
maps MAIN_FOCUSED to IDLE; NOTE_BLUR maps NOTE_FOCUSED to IDLE; every
unmatched (state, event) pair returns the input state unchanged; and the
result is always within the 3-state domain. -/
theorem focusReducer_transition_table :
    (∀ s, focusReducer s .RESET = .IDLE) ∧
    (∀ s id, focusReducer s (.NOTE_FOCUS id) = .NOTE_FOCUSED id) ∧
    focusReducer .IDLE .MAIN_EDITOR_FOCUS = .MAIN_FOCUSED ∧
    (∀ id, focusReducer (.NOTE_FOCUSED id) .MAIN_EDITOR_FOCUS = .MAIN_FOCUSED) ∧
    focusReducer .MAIN_FOCUSED .MAIN_EDITOR_BLUR = .IDLE ∧
    (∀ id, focusReducer (.NOTE_FOCUSED id) .NOTE_BLUR = .IDLE) ∧
    focusReducer .IDLE .MAIN_EDITOR_BLUR = .IDLE ∧
    focusReducer .IDLE .NOTE_BLUR = .IDLE ∧
    focusReducer .MAIN_FOCUSED .MAIN_EDITOR_FOCUS = .MAIN_FOCUSED ∧
    focusReducer .MAIN_FOCUSED .NOTE_BLUR = .MAIN_FOCUSED ∧
    (∀ id, focusReducer (.NOTE_FOCUSED id) .MAIN_EDITOR_BLUR = .NOTE_FOCUSED id) ∧
    (∀ s e, focusReducer s e = .IDLE ∨ focusReducer s e = .MAIN_FOCUSED ∨
      ∃ id, focusReducer s e = .NOTE_FOCUSED id) := by
  refine ⟨fun s => by cases s <;> rfl, fun s id => by cases s <;> rfl, rfl,
    fun id => rfl, rfl, fun id => rfl, rfl, rfl, rfl, rfl, fun id => rfl, ?_⟩
  intro s e
  rcases s with _ | _ | sid <;> rcases e with _ | _ | eid | _ | _ <;>
    first
      | exact Or.inl rfl
      | exact Or.inr (Or.inl rfl)
      | exact Or.inr (Or.inr ⟨_, rfl⟩)

/-- C7: selector correctness — `getToolbarTarget` returns `main` iff the
state is MAIN_FOCUSED, `margin` iff NOTE_FOCUSED, null iff IDLE; and
`isMainFocused`, `getFocusedNoteId`, `hasAnyFocus` agree with the state
shape. -/
theorem selectors_correct (s : FocusState) :
    (getToolbarTarget s = some .main ↔ s = .MAIN_FOCUSED) ∧
    (getToolbarTarget s = some .margin ↔ ∃ id, s = .NOTE_FOCUSED id) ∧
    (getToolbarTarget s = none ↔ s = .IDLE) ∧
    (isMainFocused s = true ↔ s = .MAIN_FOCUSED) ∧
    (∀ id, getFocusedNoteId s = some id ↔ s = .NOTE_FOCUSED id) ∧
    (getFocusedNoteId s = none ↔ ∀ id, s ≠ .NOTE_FOCUSED id) ∧
    (hasAnyFocus s = true ↔ s ≠ .IDLE) := by
  rcases s with _ | _ | sid <;>
    simp [getToolbarTarget, isMainFocused, getFocusedNoteId, hasAnyFocus]

/-- C1 counterexample: the legacy-to-typed mapping is NOT invertible —
no typed-to-legacy function can undo `LegacyMainEditorMessageMap` on all
table entries, because `toggle-bold` and `toggle-italic` both map to
`FORMAT`. -/
theorem legacyMap_not_invertible :
    ¬ ∃ g : String → String,
        ∀ p ∈ LegacyMainEditorMessageMap, g p.2 = p.1 := by
  rintro ⟨g, hg⟩
  have h1 := hg ("toggle-bold", "FORMAT") (by decide)
  have h2 := hg ("toggle-italic", "FORMAT") (by decide)
  rw [h1] at h2
  exact absurd h2 (by decide)

/-- C1 amended: in both legacy compatibility tables every legacy name
appears exactly once (so each legacy name maps to exactly one typed
name), but the mapping is not injective — distinct legacy names share a
typed name — so the typed-to-legacy round trip cannot be the identity on
all table entries. -/
theorem legacyMap_function_not_injective :
    (LegacyMainEditorMessageMap.map Prod.fst).Nodup ∧
    (LegacyMarginEditorMessageMap.map Prod.fst).Nodup ∧
    ¬ (∀ p ∈ LegacyMainEditorMessageMap, ∀ q ∈ LegacyMainEditorMessageMap,
        p.2 = q.2 → p.1 = q.1) ∧
    ¬ (∀ p ∈ LegacyMarginEditorMessageMap, ∀ q ∈ LegacyMarginEditorMessageMap,
        p.2 = q.2 → p.1 = q.1) := by
  refine ⟨by decide, by decide, ?_, ?_⟩
  · intro h
    have := h ("toggle-bold", "FORMAT") (by decide) ("toggle-italic", "FORMAT")
      (by decide) rfl
    exact absurd this (by decide)
  · intro h
    have := h ("toggle-bold", "FORMAT") (by decide) ("toggle-italic", "FORMAT")
      (by decide) rfl
    exact absurd this (by decide)

/-- Looking a key up after deleting it yields nothing. -/
theorem mapGet_mapDelete {β : Type} (l : List (String × β)) (k : String) :
    mapGet (mapDelete l k) k = none := by
  unfold mapGet mapDelete
  rw [Option.map_eq_none', List.find?_eq_none]
  intro p hp
  have h := (List.mem_filter.mp hp).2
  simpa using h

/-- Unfolding `handleResponse` when no subscription is registered. -/
theorem handleResponse_of_none {ρ : Type} {st : AMState ρ} {id : String}
    (h : mapGet st.subscriptions id = none) :
    handleResponse st id = (false, st, none) := by
  unfold handleResponse
  rw [h]

/-- Unfolding `handleResponse` when a subscription is registered. -/
theorem handleResponse_of_some {ρ : Type} {st : AMState ρ} {id : String} {r : ρ}
    (h : mapGet st.subscriptions id = some r) :
    handleResponse st id =
      (true,
       ⟨mapDelete st.subscriptions id,
        match mapGet st.timeouts id with
        | some _ => mapDelete st.timeouts id
        | none => st.timeouts⟩,
       some r) := by
  unfold handleResponse
  rw [h]

/-- C6: `handleResponse` exactly-once semantics. When a pending entry
exists for the id, `handleResponse` returns true, invokes exactly the
stored resolver, removes the subscription entry and cancels/removes the
timer entry, and a second call with the same id returns false. When no
entry exists, it returns false and leaves the state untouched, invoking
nothing. After the timeout fires (resolving the promise with the null
sentinel), a second `handleResponse` with the same id also returns
false. -/
theorem handleResponse_exactly_once {ρ : Type} (st : AMState ρ) (id : String) :
    (∀ r, mapGet st.subscriptions id = some r →
      (handleResponse st id).1 = true ∧
      (handleResponse st id).2.2 = some r ∧
      (handleResponse st id).2.1.subscriptions = mapDelete st.subscriptions id ∧
      mapGet (handleResponse st id).2.1.timeouts id = none ∧
      (handleResponse (handleResponse st id).2.1 id).1 = false ∧
      (handleResponse (handleResponse st id).2.1 id).2.2 = none) ∧
    (mapGet st.subscriptions id = none →
      handleResponse st id = (false, st, none)) ∧
    ((timeoutFire st id).2 = true →
      (handleResponse (timeoutFire st id).1 id).1 = false ∧
      (handleResponse (timeoutFire st id).1 id).2.2 = none) := by
  refine ⟨?_, fun hr => handleResponse_of_none hr, ?_⟩
  · intro r hr
    have hfst := handleResponse_of_some hr
    have hsubs : (handleResponse st id).2.1.subscriptions =
        mapDelete st.subscriptions id := by rw [hfst]
    have hnone : mapGet (handleResponse st id).2.1.subscriptions id = none := by
      rw [hsubs]; exact mapGet_mapDelete _ _
    have hsecond := handleResponse_of_none hnone
    refine ⟨by rw [hfst], by rw [hfst], hsubs, ?_, by rw [hsecond], by rw [hsecond]⟩
    rw [hfst]
    show mapGet
      (match mapGet st.timeouts id with
       | some _ => mapDelete st.timeouts id
       | none => st.timeouts) id = none
    cases htm : mapGet st.timeouts id with
    | none => exact htm
    | some v => exact mapGet_mapDelete _ _
  · intro hfire
    by_cases hsub : (mapGet st.subscriptions id).isSome = true
    · have hstate : (timeoutFire st id).1 =
          ⟨mapDelete st.subscriptions id, mapDelete st.timeouts id⟩ := by
        unfold timeoutFire
        rw [if_pos hsub]
      have hnone : mapGet (timeoutFire st id).1.subscriptions id = none := by
        rw [hstate]; exact mapGet_mapDelete _ _
      have h2 := handleResponse_of_none hnone
      exact ⟨by rw [h2], by rw [h2]⟩
    · exfalso
      unfold timeoutFire at hfire
      rw [if_neg hsub] at hfire
      simp at hfire

/-- Witness for C6 at a concrete registry state: one pending entry
`"m"` with resolver token `5` and timer handle `77`; the absent id
`"zz"`; and the state after the timeout for `"m"` fires. -/
theorem handleResponse_exactly_once_witness :
    (mapGet (AMState.subscriptions (⟨[("m", 5)], [("m", 77)]⟩ : AMState Nat)) "m"
        = some 5 ∧
      ((handleResponse (⟨[("m", 5)], [("m", 77)]⟩ : AMState Nat) "m").1 = true ∧
       (handleResponse (⟨[("m", 5)], [("m", 77)]⟩ : AMState Nat) "m").2.2 = some 5 ∧
       (handleResponse (⟨[("m", 5)], [("m", 77)]⟩ : AMState Nat) "m").2.1.subscriptions
          = mapDelete (AMState.subscriptions (⟨[("m", 5)], [("m", 77)]⟩ : AMState Nat)) "m" ∧
       mapGet (handleResponse (⟨[("m", 5)], [("m", 77)]⟩ : AMState Nat) "m").2.1.timeouts "m"
          = none ∧
       (handleResponse
          (handleResponse (⟨[("m", 5)], [("m", 77)]⟩ : AMState Nat) "m").2.1 "m").1 = false ∧
       (handleResponse
          (handleResponse (⟨[("m", 5)], [("m", 77)]⟩ : AMState Nat) "m").2.1 "m").2.2 = none)) ∧
    (mapGet (AMState.subscriptions (⟨[("m", 5)], [("m", 77)]⟩ : AMState Nat)) "zz" = none ∧
      handleResponse (⟨[("m", 5)], [("m", 77)]⟩ : AMState Nat) "zz"
        = (false, (⟨[("m", 5)], [("m", 77)]⟩ : AMState Nat), none)) ∧
    ((timeoutFire (⟨[("m", 5)], [("m", 77)]⟩ : AMState Nat) "m").2 = true ∧
      ((handleResponse (timeoutFire (⟨[("m", 5)], [("m", 77)]⟩ : AMState Nat) "m").1 "m").1
          = false ∧
       (handleResponse (timeoutFire (⟨[("m", 5)], [("m", 77)]⟩ : AMState Nat) "m").1 "m").2.2
          = none)) :=
  ⟨⟨rfl, (handleResponse_exactly_once (⟨[("m", 5)], [("m", 77)]⟩ : AMState Nat) "m").1 5 rfl⟩,
   ⟨rfl, (handleResponse_exactly_once (⟨[("m", 5)], [("m", 77)]⟩ : AMState Nat) "zz").2.1 rfl⟩,
   ⟨rfl, (handleResponse_exactly_once (⟨[("m", 5)], [("m", 77)]⟩ : AMState Nat) "m").2.2 rfl⟩⟩

/-- C9: `cleanup` cancels every outstanding timer (returning exactly the
registered timer handles to `clearTimeout`), unconditionally empties both
maps, and invokes no stored resolver; afterwards `handleResponse`
returns false for every id without invoking anything, and no timeout
callback can resolve anything either — so a promise still pending at
cleanup time is never resolved, with a value or with the null
sentinel. -/
theorem cleanup_clears_everything {ρ : Type} (st : AMState ρ) :
    (cleanup st).1.subscriptions = [] ∧
    (cleanup st).1.timeouts = [] ∧
    (cleanup st).2.1 = st.timeouts.map (·.2) ∧
    (cleanup st).2.2 = ([] : List ρ) ∧
    (∀ id, handleResponse (cleanup st).1 id = (false, (cleanup st).1, none)) ∧
    (∀ id, timeoutFire (cleanup st).1 id = ((cleanup st).1, false)) :=
  ⟨rfl, rfl, rfl, rfl, fun _ => rfl, fun _ => rfl⟩

/-- `contains` on a string list is membership (`==` on `String` is
lawful). -/
theorem contains_string_iff (l : List String) (x : String) :
    l.contains x = true ↔ x ∈ l := by
  simp [List.contains_iff_exists_mem_beq]

/-- The notes output of `reconcile` depends only on the anchors
(definitional). -/
theorem reconcile_notes (input : ReconcilerInput) :
    (reconcile input).notes = newNotesOf input.anchors := rfl

/-- The `added` field of the diff (definitional). -/
theorem reconcile_added (input : ReconcilerInput) :
    (reconcile input).diff.added =
      computeAdded input.currentNotes (newNotesOf input.anchors) := rfl

/-- The `removed` field of the diff (definitional). -/
theorem reconcile_removed (input : ReconcilerInput) :
    (reconcile input).diff.removed =
      computeRemoved input.currentNotes (newNotesOf input.anchors) := rfl

/-- The `reordered` field of the diff (definitional). -/
theorem reconcile_reordered (input : ReconcilerInput) :
    (reconcile input).diff.reordered =
      computeReordered input.currentNotes (newNotesOf input.anchors) := rfl

/-- The `hasChanges` flag of the diff (definitional). -/
theorem reconcile_hasChanges (input : ReconcilerInput) :
    (reconcile input).diff.hasChanges =
      (!(reconcile input).diff.added.isEmpty ||
       !(reconcile input).diff.removed.isEmpty ||
       !(reconcile input).diff.reordered.isEmpty) := rfl

/-- The commands output of `reconcile` (definitional). -/
theorem reconcile_commands (input : ReconcilerInput) :
    (reconcile input).commands =
      (reconcile input).diff.removed.map
        (fun noteId => MarginEditorCommand.DELETE_NOTE_BLOCK noteId) ++
      (reconcile input).diff.added.map (insertCommandFor (newNotesOf input.anchors)) ++
      (if (newNotesOf input.anchors).isEmpty then []
       else [MarginEditorCommand.UPDATE_NOTE_INDICES
              ((newNotesOf input.anchors).map (fun n => (n.id, n.noteIndex)))]) := rfl

theorem buildNotes_length (l : List AnchorData) (i : Nat) :
    (buildNotes l i).length = l.length := by
  induction l generalizing i with
  | nil => rfl
  | cons a t ih => simp [buildNotes, ih]

theorem buildNotes_map_id (l : List AnchorData) (i : Nat) :
    (buildNotes l i).map (·.id) = l.map (·.id) := by
  induction l generalizing i with
  | nil => rfl
  | cons a t ih => simp [buildNotes, ih]

theorem buildNotes_map_triple (l : List AnchorData) (i : Nat) :
    (buildNotes l i).map (fun n => (n.id, n.line, n.blockIndex)) =
      l.map (fun a => (a.id, a.line, a.blockIndex)) := by
  induction l generalizing i with
  | nil => rfl
  | cons a t ih => simp [buildNotes, ih]

theorem buildNotes_map_noteIndex (l : List AnchorData) (i : Nat) :
    (buildNotes l i).map (·.noteIndex) =
      (List.range l.length).map (fun (k : Nat) => (i : Int) + k + 1) := by
  induction l generalizing i with
  | nil => rfl
  | cons a t ih =>
    rw [buildNotes, List.map_cons, ih, List.length_cons, List.range_succ_eq_map,
      List.map_cons, List.map_map]
    refine congrArg₂ List.cons (by push_cast; ring) ?_
    refine List.map_congr_left fun k _ => ?_
    simp only [Function.comp_apply]
    push_cast
    ring

theorem mem_buildNotes {n : NoteData} {l : List AnchorData} {i : Nat}
    (h : n ∈ buildNotes l i) :
    ∃ a ∈ l, n.line = a.line ∧ n.blockIndex = a.blockIndex := by
  induction l generalizing i with
  | nil => cases h
  | cons a t ih =>
    rcases List.mem_cons.mp h with rfl | hmem
    · exact ⟨a, List.mem_cons_self a t, rfl, rfl⟩
    · obtain ⟨b, hb, h1, h2⟩ := ih hmem
      exact ⟨b, List.mem_cons_of_mem a hb, h1, h2⟩

theorem buildNotes_pairwise {l : List AnchorData} (h : l.Pairwise anchorLe)
    (i : Nat) : (buildNotes l i).Pairwise noteLe := by
  induction l generalizing i with
  | nil => exact List.Pairwise.nil
  | cons a t ih =>
    rcases List.pairwise_cons.mp h with ⟨ha, ht⟩
    refine List.pairwise_cons.mpr ⟨?_, ih ht (i + 1)⟩
    intro m hm
    obtain ⟨b, hb, h1, h2⟩ := mem_buildNotes hm
    have hab := ha b hb
    unfold anchorLe at hab
    show a.line < m.line ∨ (a.line = m.line ∧ a.blockIndex ≤ m.blockIndex)
    rw [h1, h2]
    exact hab

theorem sortAnchors_pairwise (A : List AnchorData) :
    (sortAnchors A).Pairwise anchorLe :=
  List.sorted_insertionSort anchorLe A

theorem sortAnchors_perm (A : List AnchorData) : (sortAnchors A).Perm A :=
  List.perm_insertionSort anchorLe A

theorem newNotesOf_map_id_perm (A : List AnchorData) :
    ((newNotesOf A).map (·.id)).Perm (A.map (·.id)) := by
  rw [newNotesOf, buildNotes_map_id]
  exact (sortAnchors_perm A).map _

theorem newNotesOf_id_nodup {A : List AnchorData}
    (h : (A.map (·.id)).Nodup) : ((newNotesOf A).map (·.id)).Nodup :=
  ((newNotesOf_map_id_perm A).nodup_iff).mpr h

theorem filter_id_eq_of_nodup {N : List NoteData}
    (h : (N.map (·.id)).Nodup) {n : NoteData} (hn : n ∈ N) :
    N.filter (fun m => m.id == n.id) = [n] := by
  induction N with
  | nil => cases hn
  | cons a t ih =>
    rw [List.map_cons, List.nodup_cons] at h
    rcases List.mem_cons.mp hn with rfl | hmem
    · rw [List.filter_cons_of_pos (by simp)]
      suffices hnil : t.filter (fun m => m.id == n.id) = [] by rw [hnil]
      rw [List.filter_eq_nil_iff]
      intro m hm hbeq
      rw [beq_iff_eq] at hbeq
      exact h.1 (by rw [← hbeq]; exact List.mem_map_of_mem _ hm)
    · have hne : (a.id == n.id) = false := by
        rw [beq_eq_false_iff_ne]
        intro heq
        exact h.1 (by rw [heq]; exact List.mem_map_of_mem _ hmem)
      rw [List.filter_cons_of_neg (by simp [hne])]
      exact ih h.2 hmem

theorem currentIndexOf_of_nodup {N : List NoteData}
    (h : (N.map (·.id)).Nodup) {n : NoteData} (hn : n ∈ N) :
    currentIndexOf N n.id = some n.noteIndex := by
  unfold currentIndexOf
  rw [filter_id_eq_of_nodup h hn]
  rfl

/-- C3: ordering invariant — for every anchor list (in particular every
non-empty one), the reconciled notes are sorted ascending by
`(line, blockIndex)`, their `noteIndex` values are exactly the
contiguous sequence `1..N` (the note at sorted position `i` has
`noteIndex i + 1`, no gaps or duplicates), and the notes are recomputed
from the anchors alone — identical for any two `currentNotes` inputs,
never inherited. -/
theorem reconcile_ordering_invariant (A : List AnchorData)
    (N N2 : List NoteData) :
    ((reconcile ⟨A, N⟩).notes).Pairwise noteLe ∧
    ((reconcile ⟨A, N⟩).notes).map (·.noteIndex) =
      (List.range A.length).map (fun (k : Nat) => (k : Int) + 1) ∧
    (reconcile ⟨A, N⟩).notes = (reconcile ⟨A, N2⟩).notes := by
  refine ⟨?_, ?_, rfl⟩
  · rw [reconcile_notes]
    exact buildNotes_pairwise (sortAnchors_pairwise A) 0
  · rw [reconcile_notes, newNotesOf, buildNotes_map_noteIndex,
      (sortAnchors_perm A).length_eq]
    refine List.map_congr_left fun k _ => ?_
    push_cast
    ring

/-- C10: `reconcile` never drops or invents anchors — for every input
(duplicate ids and negative positions included) the output notes list
has the anchors' length and its multiset of `(id, line, blockIndex)`
triples is a permutation of the anchors' (each note copies those fields
verbatim from one anchor; the embedding is pure, so inputs are never
mutated). -/
theorem reconcile_preserves_anchor_multiset (input : ReconcilerInput) :
    (reconcile input).notes.length = input.anchors.length ∧
    ((reconcile input).notes.map (fun n => (n.id, n.line, n.blockIndex))).Perm
      (input.anchors.map (fun a => (a.id, a.line, a.blockIndex))) := by
  constructor
  · rw [reconcile_notes, newNotesOf, buildNotes_length,
      (sortAnchors_perm _).length_eq]
  · rw [reconcile_notes, newNotesOf, buildNotes_map_triple]
    exact (sortAnchors_perm _).map _

/-- `contains = false` on a string list is non-membership. -/
theorem contains_string_eq_false_iff (l : List String) (x : String) :
    l.contains x = false ↔ x ∉ l := by
  rw [← contains_string_iff]
  cases l.contains x <;> simp

theorem mem_computeAdded (N M : List NoteData) (x : String) :
    x ∈ computeAdded N M ↔ (x ∈ M.map (·.id) ∧ x ∉ N.map (·.id)) := by
  unfold computeAdded
  simp only [List.mem_map, List.mem_filter, Bool.not_eq_true',
    contains_string_eq_false_iff]
  constructor
  · rintro ⟨n, ⟨hn, hnc⟩, rfl⟩
    exact ⟨⟨n, hn, rfl⟩, hnc⟩
  · rintro ⟨⟨n, hn, rfl⟩, hnc⟩
    exact ⟨n, ⟨hn, hnc⟩, rfl⟩

theorem mem_computeRemoved (N M : List NoteData) (x : String) :
    x ∈ computeRemoved N M ↔ (x ∈ N.map (·.id) ∧ x ∉ M.map (·.id)) := by
  unfold computeRemoved
  simp only [List.mem_map, List.mem_filter, Bool.not_eq_true',
    contains_string_eq_false_iff]
  constructor
  · rintro ⟨n, ⟨hn, hnc⟩, rfl⟩
    exact ⟨⟨n, hn, rfl⟩, hnc⟩
  · rintro ⟨⟨n, hn, rfl⟩, hnc⟩
    exact ⟨n, ⟨hn, hnc⟩, rfl⟩

theorem mem_computeReordered_of_nodup {N : List NoteData} (M : List NoteData)
    (h : (N.map (·.id)).Nodup) (x : String) :
    x ∈ computeReordered N M ↔
      ∃ n ∈ M, ∃ c ∈ N, n.id = x ∧ c.id = x ∧ n.noteIndex ≠ c.noteIndex := by
  unfold computeReordered
  simp only [List.mem_map, List.mem_filter, Bool.and_eq_true, Bool.not_eq_true',
    decide_eq_false_iff_not]
  constructor
  · rintro ⟨n, ⟨hn, hcontains, hne⟩, rfl⟩
    obtain ⟨c, hc, hcid⟩ := List.mem_map.mp ((contains_string_iff _ _).mp hcontains)
    refine ⟨n, hn, c, hc, rfl, hcid, ?_⟩
    intro heq
    apply hne
    have hcur := currentIndexOf_of_nodup h hc
    rw [hcid] at hcur
    rw [hcur, heq]
  · rintro ⟨n, hn, c, hc, rfl, hcid, hne⟩
    refine ⟨n, ⟨hn, ?_, ?_⟩, rfl⟩
    · exact (contains_string_iff _ _).mpr
        (by rw [← hcid]; exact List.mem_map_of_mem _ hc)
    · have hcur := currentIndexOf_of_nodup h hc
      rw [hcid] at hcur
      rw [hcur]
      intro heq
      exact hne (Option.some.inj heq).symm

/-- C8: diff correctness — `added` is exactly the ids in the new note
list and not in `currentNotes`, `removed` exactly the ids in
`currentNotes` and not in the new list, `reordered` exactly the ids
present in both whose recomputed `noteIndex` differs from the one
recorded in `currentNotes` (which is unambiguous since `currentNotes`
ids are distinct), and `hasChanges` is true iff one of the three is
non-empty. -/
theorem reconcile_diff_correct (input : ReconcilerInput)
    (h : (input.currentNotes.map (·.id)).Nodup) :
    (∀ x, x ∈ (reconcile input).diff.added ↔
        (x ∈ (reconcile input).notes.map (·.id) ∧
         x ∉ input.currentNotes.map (·.id))) ∧
    (∀ x, x ∈ (reconcile input).diff.removed ↔
        (x ∈ input.currentNotes.map (·.id) ∧
         x ∉ (reconcile input).notes.map (·.id))) ∧
    (∀ x, x ∈ (reconcile input).diff.reordered ↔
        ∃ n ∈ (reconcile input).notes, ∃ c ∈ input.currentNotes,
          n.id = x ∧ c.id = x ∧ n.noteIndex ≠ c.noteIndex) ∧
    ((reconcile input).diff.hasChanges = true ↔
        ((reconcile input).diff.added ≠ [] ∨
         (reconcile input).diff.removed ≠ [] ∨
         (reconcile input).diff.reordered ≠ [])) := by
  refine ⟨?_, ?_, ?_, ?_⟩
  · intro x
    rw [reconcile_added, reconcile_notes]
    exact mem_computeAdded _ _ x
  · intro x
    rw [reconcile_removed, reconcile_notes]
    exact mem_computeRemoved _ _ x
  · intro x
    rw [reconcile_reordered, reconcile_notes]
    exact mem_computeReordered_of_nodup _ h x
  · rw [reconcile_hasChanges]
    simp
    tauto

/-- Witness for C8 at a concrete input: one anchor `a`, one current note
`b`. -/
theorem reconcile_diff_correct_witness :
    ((([⟨"b", 1, 5, 5⟩] : List NoteData).map (·.id)).Nodup) ∧
    ((∀ x, x ∈ (reconcile ⟨[⟨"a", 1, 0⟩], [⟨"b", 1, 5, 5⟩]⟩).diff.added ↔
        (x ∈ (reconcile ⟨[⟨"a", 1, 0⟩], [⟨"b", 1, 5, 5⟩]⟩).notes.map (·.id) ∧
         x ∉ ([⟨"b", 1, 5, 5⟩] : List NoteData).map (·.id))) ∧
     (∀ x, x ∈ (reconcile ⟨[⟨"a", 1, 0⟩], [⟨"b", 1, 5, 5⟩]⟩).diff.removed ↔
        (x ∈ ([⟨"b", 1, 5, 5⟩] : List NoteData).map (·.id) ∧
         x ∉ (reconcile ⟨[⟨"a", 1, 0⟩], [⟨"b", 1, 5, 5⟩]⟩).notes.map (·.id))) ∧
     (∀ x, x ∈ (reconcile ⟨[⟨"a", 1, 0⟩], [⟨"b", 1, 5, 5⟩]⟩).diff.reordered ↔
        ∃ n ∈ (reconcile ⟨[⟨"a", 1, 0⟩], [⟨"b", 1, 5, 5⟩]⟩).notes,
          ∃ c ∈ ([⟨"b", 1, 5, 5⟩] : List NoteData),
            n.id = x ∧ c.id = x ∧ n.noteIndex ≠ c.noteIndex) ∧
     ((reconcile ⟨[⟨"a", 1, 0⟩], [⟨"b", 1, 5, 5⟩]⟩).diff.hasChanges = true ↔
        ((reconcile ⟨[⟨"a", 1, 0⟩], [⟨"b", 1, 5, 5⟩]⟩).diff.added ≠ [] ∨
         (reconcile ⟨[⟨"a", 1, 0⟩], [⟨"b", 1, 5, 5⟩]⟩).diff.removed ≠ [] ∨
         (reconcile ⟨[⟨"a", 1, 0⟩], [⟨"b", 1, 5, 5⟩]⟩).diff.reordered ≠ []))) :=
  ⟨by decide, reconcile_diff_correct ⟨[⟨"a", 1, 0⟩], [⟨"b", 1, 5, 5⟩]⟩ (by decide)⟩

theorem insertCommandFor_isDelete (M : List NoteData) (x : String) :
    (insertCommandFor M x).isDelete = false := by
  unfold insertCommandFor
  cases hf : M.find? (fun n => n.id == x) <;> rfl

theorem insertCommandFor_isUpdate (M : List NoteData) (x : String) :
    (insertCommandFor M x).isUpdate = false := by
  unfold insertCommandFor
  cases hf : M.find? (fun n => n.id == x) <;> rfl

/-- In a list split as `ds ++ rest` where `ds` holds no insert command
and `rest` holds no delete command, every delete position precedes every
insert position. -/
theorem deletes_precede_inserts {L : List MarginEditorCommand}
    (ds rest : List MarginEditorCommand)
    (hL : L = ds ++ rest)
    (hds : ∀ c ∈ ds, c.isInsert = false)
    (hrest : ∀ c ∈ rest, c.isDelete = false)
    (i j : Nat) (hi : i < L.length) (hj : j < L.length)
    (hdel : (L.get ⟨i, hi⟩).isDelete = true)
    (hins : (L.get ⟨j, hj⟩).isInsert = true) : i < j := by
  subst hL
  have hilt : i < ds.length := by
    by_contra hge
    push_neg at hge
    have hmem : (ds ++ rest).get ⟨i, hi⟩ ∈ rest := by
      rw [List.get_eq_getElem, List.getElem_append_right hge]
      exact List.getElem_mem _
    rw [hrest _ hmem] at hdel
    exact absurd hdel (by simp)
  have hjge : ds.length ≤ j := by
    by_contra hlt
    push_neg at hlt
    have hmem : (ds ++ rest).get ⟨j, hj⟩ ∈ ds := by
      rw [List.get_eq_getElem, List.getElem_append_left hlt]
      exact List.getElem_mem _
    rw [hds _ hmem] at hins
    exact absurd hins (by simp)
  omega

/-- C4: command order and shape — for every input the command list is
exactly the removed ids' `DELETE_NOTE_BLOCK` commands, then the added
ids' `INSERT_NOTE_BLOCK` commands (each carrying the recomputed
`noteIndex` of a note in the new list with that id), then exactly one
trailing `UPDATE_NOTE_INDICES` carrying `(id, noteIndex)` for every note
of the new list iff that list is non-empty; in particular every delete
position precedes every insert position. -/
theorem reconcile_command_shape (input : ReconcilerInput) :
    ((reconcile input).commands =
      (reconcile input).diff.removed.map
        (fun noteId => MarginEditorCommand.DELETE_NOTE_BLOCK noteId) ++
      (reconcile input).diff.added.map (insertCommandFor (reconcile input).notes) ++
      (if (reconcile input).notes.isEmpty then []
       else [MarginEditorCommand.UPDATE_NOTE_INDICES
              ((reconcile input).notes.map (fun n => (n.id, n.noteIndex)))])) ∧
    (∀ x ∈ (reconcile input).diff.added, ∃ n ∈ (reconcile input).notes,
        n.id = x ∧ insertCommandFor (reconcile input).notes x =
          MarginEditorCommand.INSERT_NOTE_BLOCK x n.noteIndex) ∧
    (∀ i j (hi : i < (reconcile input).commands.length)
        (hj : j < (reconcile input).commands.length),
        ((reconcile input).commands.get ⟨i, hi⟩).isDelete = true →
        ((reconcile input).commands.get ⟨j, hj⟩).isInsert = true → i < j) ∧
    (((reconcile input).commands.filter (·.isUpdate)).length =
      if (reconcile input).notes.isEmpty then 0 else 1) := by
  refine ⟨reconcile_commands input, ?_, ?_, ?_⟩
  · intro x hx
    rw [reconcile_added] at hx
    rw [reconcile_notes]
    have hmem : x ∈ (newNotesOf input.anchors).map (·.id) :=
      ((mem_computeAdded _ _ x).mp hx).1
    obtain ⟨n0, hn0, hid0⟩ := List.mem_map.mp hmem
    have hsome : ((newNotesOf input.anchors).find? (fun n => n.id == x)).isSome := by
      rw [List.find?_isSome]
      exact ⟨n0, hn0, by simp [hid0]⟩
    obtain ⟨n, hfind⟩ := Option.isSome_iff_exists.mp hsome
    have hnid : n.id = x := by simpa using List.find?_some hfind
    refine ⟨n, List.mem_of_find?_eq_some hfind, hnid, ?_⟩
    unfold insertCommandFor
    rw [hfind]
    show MarginEditorCommand.INSERT_NOTE_BLOCK n.id n.noteIndex =
      MarginEditorCommand.INSERT_NOTE_BLOCK x n.noteIndex
    rw [hnid]
  · intro i j hi hj hdel hins
    refine deletes_precede_inserts
      ((reconcile input).diff.removed.map
        (fun noteId => MarginEditorCommand.DELETE_NOTE_BLOCK noteId))
      ((reconcile input).diff.added.map
          (insertCommandFor (newNotesOf input.anchors)) ++
        (if (newNotesOf input.anchors).isEmpty then []
         else [MarginEditorCommand.UPDATE_NOTE_INDICES
                ((newNotesOf input.anchors).map (fun n => (n.id, n.noteIndex)))]))
      ?_ ?_ ?_ i j hi hj hdel hins
    · rw [reconcile_commands, List.append_assoc]
    · intro c hc
      obtain ⟨y, _, rfl⟩ := List.mem_map.mp hc
      rfl
    · intro c hc
      rcases List.mem_append.mp hc with hc1 | hc2
      · obtain ⟨y, _, rfl⟩ := List.mem_map.mp hc1
        exact insertCommandFor_isDelete _ _
      · by_cases hemp : (newNotesOf input.anchors).isEmpty = true
        · rw [if_pos hemp] at hc2
          cases hc2
        · rw [if_neg hemp] at hc2
          obtain rfl := List.mem_singleton.mp hc2
          rfl
  · rw [reconcile_commands, reconcile_notes, List.filter_append, List.filter_append]
    have h1 : ((reconcile input).diff.removed.map
        (fun noteId => MarginEditorCommand.DELETE_NOTE_BLOCK noteId)).filter
          (·.isUpdate) = [] := by
      rw [List.filter_eq_nil_iff]
      intro c hc
      obtain ⟨y, _, rfl⟩ := List.mem_map.mp hc
      simp [MarginEditorCommand.isUpdate]
    have h2 : ((reconcile input).diff.added.map
        (insertCommandFor (newNotesOf input.anchors))).filter
          (·.isUpdate) = [] := by
      rw [List.filter_eq_nil_iff]
      intro c hc
      obtain ⟨y, _, rfl⟩ := List.mem_map.mp hc
      simp [insertCommandFor_isUpdate]
    rw [h1, h2]
    by_cases hemp : (newNotesOf input.anchors).isEmpty = true
    · rw [if_pos hemp, if_pos hemp]
      rfl
    · rw [if_neg hemp, if_neg hemp]
      rfl

/-- Witness for C4: one removed note `q`, one added anchor `p` — the
delete command at position 0 precedes the insert command at
position 1. -/
theorem reconcile_command_shape_witness :
    (0 : Nat) < (reconcile ⟨[⟨"p", 1, 0⟩], [⟨"q", 1, 2, 0⟩]⟩).commands.length ∧
    (1 : Nat) < (reconcile ⟨[⟨"p", 1, 0⟩], [⟨"q", 1, 2, 0⟩]⟩).commands.length ∧
    (0 : Nat) < 1 :=
  ⟨by decide, by decide,
   (reconcile_command_shape ⟨[⟨"p", 1, 0⟩], [⟨"q", 1, 2, 0⟩]⟩).2.2.1 0 1
     (by decide) (by decide) (by decide) (by decide)⟩

theorem computeRemoved_self (M : List NoteData) : computeRemoved M M = [] := by
  unfold computeRemoved
  have hnil : M.filter (fun n => !((M.map (·.id)).contains n.id)) = [] := by
    rw [List.filter_eq_nil_iff]
    intro n hn
    rw [(contains_string_iff _ _).mpr (List.mem_map_of_mem _ hn)]
    simp
  rw [hnil]
  rfl

theorem computeAdded_self (M : List NoteData) : computeAdded M M = [] := by
  unfold computeAdded
  have hnil : M.filter (fun n => !((M.map (·.id)).contains n.id)) = [] := by
    rw [List.filter_eq_nil_iff]
    intro n hn
    rw [(contains_string_iff _ _).mpr (List.mem_map_of_mem _ hn)]
    simp
  rw [hnil]
  rfl

theorem computeReordered_self_of_nodup {M : List NoteData}
    (h : (M.map (·.id)).Nodup) : computeReordered M M = [] := by
  unfold computeReordered
  have hnil : M.filter (fun n =>
      ((M.map (·.id)).contains n.id) &&
        !(decide (currentIndexOf M n.id = some n.noteIndex))) = [] := by
    rw [List.filter_eq_nil_iff]
    intro n hn
    rw [currentIndexOf_of_nodup h hn]
    simp
  rw [hnil]
  rfl

/-- C2 fails as stated: with a duplicated anchor id the `Map` built from
`currentNotes` keeps only the last entry's `noteIndex`, so the first
occurrence always registers as reordered. With
`A = [{id a, line 0, blockIndex 0}, {id a, line 1, blockIndex 0}]`, the
second reconciliation of `A` against its own output still reports
`hasChanges = true`. -/
theorem reconcile_idempotence_counterexample :
    (reconcile ⟨[⟨"a", 0, 0⟩, ⟨"a", 1, 0⟩],
        (reconcile ⟨[⟨"a", 0, 0⟩, ⟨"a", 1, 0⟩], []⟩).notes⟩).diff.hasChanges
      = true := by
  decide

/-- C2 amended: for every anchor list `A` with pairwise-distinct ids and
every note list `N`, reconciling `A` against the notes of
`reconcile(A, N)` yields `hasChanges = false`, the same notes, and a
command list with no insert and no delete — just the trailing
`UPDATE_NOTE_INDICES` (emitted iff the note list is non-empty).
(Without the distinct-id hypothesis only `hasChanges = false` can fail,
as the counterexample shows.) -/
theorem reconcile_idempotent (A : List AnchorData) (N : List NoteData)
    (h : (A.map (·.id)).Nodup) :
    (reconcile ⟨A, (reconcile ⟨A, N⟩).notes⟩).diff.hasChanges = false ∧
    (reconcile ⟨A, (reconcile ⟨A, N⟩).notes⟩).notes = (reconcile ⟨A, N⟩).notes ∧
    (reconcile ⟨A, (reconcile ⟨A, N⟩).notes⟩).commands =
      (if (reconcile ⟨A, N⟩).notes.isEmpty then []
       else [MarginEditorCommand.UPDATE_NOTE_INDICES
              ((reconcile ⟨A, N⟩).notes.map (fun n => (n.id, n.noteIndex)))]) := by
  have hnodup : ((newNotesOf A).map (·.id)).Nodup := newNotesOf_id_nodup h
  have hrem := computeRemoved_self (newNotesOf A)
  have hadd := computeAdded_self (newNotesOf A)
  have hreord := computeReordered_self_of_nodup hnodup
  refine ⟨?_, rfl, ?_⟩
  · show (!(computeAdded (newNotesOf A) (newNotesOf A)).isEmpty ||
      !(computeRemoved (newNotesOf A) (newNotesOf A)).isEmpty ||
      !(computeReordered (newNotesOf A) (newNotesOf A)).isEmpty) = false
    rw [hrem, hadd, hreord]
    rfl
  · show (computeRemoved (newNotesOf A) (newNotesOf A)).map
        (fun noteId => MarginEditorCommand.DELETE_NOTE_BLOCK noteId) ++
      (computeAdded (newNotesOf A) (newNotesOf A)).map
        (insertCommandFor (newNotesOf A)) ++
      (if (newNotesOf A).isEmpty then []
       else [MarginEditorCommand.UPDATE_NOTE_INDICES
              ((newNotesOf A).map (fun n => (n.id, n.noteIndex)))]) =
      (if (newNotesOf A).isEmpty then []
       else [MarginEditorCommand.UPDATE_NOTE_INDICES
              ((newNotesOf A).map (fun n => (n.id, n.noteIndex)))])
    rw [hrem, hadd]
    rfl

/-- Witness for C2 (amended) at a concrete input: two anchors with
distinct ids `p`, `q` and an empty current list. -/
theorem reconcile_idempotent_witness :
    ((([⟨"p", 1, 0⟩, ⟨"q", 2, 0⟩] : List AnchorData).map (·.id)).Nodup) ∧
    ((reconcile ⟨[⟨"p", 1, 0⟩, ⟨"q", 2, 0⟩],
        (reconcile ⟨[⟨"p", 1, 0⟩, ⟨"q", 2, 0⟩], []⟩).notes⟩).diff.hasChanges
          = false ∧
     (reconcile ⟨[⟨"p", 1, 0⟩, ⟨"q", 2, 0⟩],
        (reconcile ⟨[⟨"p", 1, 0⟩, ⟨"q", 2, 0⟩], []⟩).notes⟩).notes =
       (reconcile ⟨[⟨"p", 1, 0⟩, ⟨"q", 2, 0⟩], []⟩).notes ∧
     (reconcile ⟨[⟨"p", 1, 0⟩, ⟨"q", 2, 0⟩],
        (reconcile ⟨[⟨"p", 1, 0⟩, ⟨"q", 2, 0⟩], []⟩).notes⟩).commands =
       (if (reconcile ⟨[⟨"p", 1, 0⟩, ⟨"q", 2, 0⟩], []⟩).notes.isEmpty then []
        else [MarginEditorCommand.UPDATE_NOTE_INDICES
               ((reconcile ⟨[⟨"p", 1, 0⟩, ⟨"q", 2, 0⟩], []⟩).notes.map
                 (fun n => (n.id, n.noteIndex)))])) :=
  ⟨by decide, reconcile_idempotent [⟨"p", 1, 0⟩, ⟨"q", 2, 0⟩] [] (by decide)⟩

end NoteApp
